import Mathlib

/-!
Verification development for the kms-wallet library.

The TypeScript sources are shallowly embedded here:

* `src/KmsWallet.ts` — the single-key identity: DER signature parsing with
  low-s normalization (`KmsWallet.parseDERSignature`), recovery-id search
  (`findRecoveryParam`), and the cached address/public-key state
  (`KmsWallet.getPublicKeyW`, `KmsWallet.getAddressW`, `KmsWallet.signDigestW`).
* the second `KmsWallet` variant bundled in `src/KmsWalletProvider.ts` — the
  refactored parser (`KmsWalletV2.parseDERSignature`,
  `KmsWalletV2.normalizeSignatureComponent`, `KmsWalletV2.normalizeAndLowS`).
* `src/KmsHdWallet.ts` — the HD identity: seed derivation from a fixed signed
  message, seed-to-entropy conversion, master-node caching and child
  derivation (`KmsHdWallet` namespace).

Byte buffers (`Uint8Array` / `Buffer`) are `List Nat` with entries below 256;
JavaScript strings are `List Char`.  Out-of-bounds `Uint8Array` reads yield
`undefined` in JavaScript; they are modelled with `List.get?` returning
`none`, and each comparison against a tag byte compares the whole `Option`
exactly as `undefined !== 0x30` does.  External library calls (AWS KMS,
ethers keccak / mnemonic / HD-node functions) are parameters of the
embedding, since the spec places them outside the core.
-/

/-- The integer value of a big-endian byte buffer, as computed by
`BigInt('0x' + buf.toString('hex'))` in the source. -/
def toNatBE (l : List Nat) : Nat :=
  l.foldl (fun a b => a * 256 + b) 0

/-- secp256k1 group order `n` (the literal in `parseDERSignature` and
`normalizeAndLowS`). -/
def secpN : Nat :=
  0xFFFFFFFFFFFFFFFFFFFFFFFFFFFFFFFEBAAEDCE6AF48A03BBFD25E8CD0364141

/-- `halfN = n / 2n` — BigInt division truncates, as does `Nat` division. -/
def halfN : Nat := secpN / 2

/-- The loop `while (x.length > 32 && x[0] === 0x00) x = x.slice(1)` from
both parser variants: strip DER zero padding down to 32 bytes. -/
def dropZeros32 : List Nat → List Nat
  | [] => []
  | b :: rest => if 32 < rest.length + 1 ∧ b = 0 then dropZeros32 rest else b :: rest

/-- The step `if (x.length < 32) x = Buffer.concat([Buffer.alloc(32 - x.length, 0), x])`
from both parser variants: left-pad with zero bytes up to 32. -/
def padTo32 (l : List Nat) : List Nat :=
  if l.length < 32 then List.replicate (32 - l.length) 0 ++ l else l

/-!
## The JavaScript hex-string round trip

The low-s flip writes the new `s` through strings:
`Buffer.from((n - sBigInt).toString(16).padStart(64, '0'), 'hex')`.
That pipeline is modelled literally: `BigInt.toString(16)` renders
most-significant-first lowercase hex digits (a `-` sign first when negative),
`padStart` left-pads with `'0'` to 64 characters, and Node's `Buffer.from`
with `'hex'` consumes two hex characters per byte and stops at the first
invalid pair.
-/

/-- Hex digits of `m`, most significant first, no leading zeros; the fuel
argument only forces termination and any `fuel ≥ m` gives the digits. -/
def hexDigitsAux : Nat → Nat → List Nat
  | 0, _ => []
  | fuel + 1, m => if m = 0 then [] else hexDigitsAux fuel (m / 16) ++ [m % 16]

/-- Digits of `m.toString(16)` for a non-negative BigInt: `[0]` for zero,
otherwise most-significant-first hex digits. -/
def hexDigits (m : Nat) : List Nat :=
  if m = 0 then [0] else hexDigitsAux m m

/-- Lowercase hex digit character, as produced by `BigInt.toString(16)`. -/
def digitToChar (d : Nat) : Char :=
  if d < 10 then Char.ofNat (48 + d) else Char.ofNat (87 + d)

/-- `m.toString(16)` for a non-negative BigInt. -/
def natToHexChars (m : Nat) : List Char :=
  (hexDigits m).map digitToChar

/-- `v.toString(16)` for a BigInt: negative values render as a `-` sign
followed by the digits of the absolute value. -/
def intToHexChars (v : Int) : List Char :=
  if v < 0 then Char.ofNat 45 :: natToHexChars v.natAbs else natToHexChars v.toNat

/-- `str.padStart(64, '0')`. -/
def padStart64 (l : List Char) : List Char :=
  List.replicate (64 - l.length) (Char.ofNat 48) ++ l

/-- The value of one hex character as parsed by `Buffer.from(·, 'hex')`;
`none` for a non-hex character. -/
def hexCharVal (c : Char) : Option Nat :=
  if 48 ≤ c.toNat ∧ c.toNat ≤ 57 then some (c.toNat - 48)
  else if 97 ≤ c.toNat ∧ c.toNat ≤ 102 then some (c.toNat - 87)
  else if 65 ≤ c.toNat ∧ c.toNat ≤ 70 then some (c.toNat - 55)
  else none

/-- Node's `Buffer.from(str, 'hex')`: two characters per byte, truncating at
the first invalid pair or at a dangling final character. -/
def bufferFromHex : List Char → List Nat
  | c1 :: c2 :: rest =>
    match hexCharVal c1, hexCharVal c2 with
    | some h, some lo => (16 * h + lo) :: bufferFromHex rest
    | _, _ => []
  | _ => []

/-- The buffer written back by the low-s branch,
`Buffer.from((n - sBigInt).toString(16).padStart(64, '0'), 'hex')`,
as a function of the integer value `sBigInt` of the normalized `s`. -/
def lowSBytes (sVal : Nat) : List Nat :=
  bufferFromHex (padStart64 (intToHexChars ((secpN : Int) - (sVal : Int))))

/-!
## DER signature parsing — both variants

`KmsWallet.parseDERSignature` (in `KmsWallet.ts`) does the stripping,
padding and low-s flip inline; the second `KmsWallet` class (bundled in
`KmsWalletProvider.ts`) factors those steps into
`normalizeSignatureComponent` and `normalizeAndLowS`.  The walk over the
buffer is the same in both: check `0x30`, skip the length byte, read tag /
length / bytes for `r` and then for `s`.  Out-of-range reads surface as
`undefined` and make the next `!== 0x02` comparison throw; a missing `s`
length makes `offset + sLength` equal `NaN`, so `slice` returns an empty
buffer and parsing continues.
-/

/-- The three `throw new Error(...)` sites of the parsers. -/
inductive DerError
  | invalidSignature   -- 'Invalid DER signature'
  | invalidRMarker     -- 'Invalid DER signature: R marker'
  | invalidSMarker     -- 'Invalid DER signature: S marker'
  deriving DecidableEq, Repr

namespace KmsWallet

/-- `KmsWallet.parseDERSignature` from `KmsWallet.ts`: DER walk, then the
inline strip / pad / low-s steps on `r` and `s`. -/
def parseDERSignature (signature : List Nat) : Except DerError (List Nat × List Nat) :=
  if signature.get? 0 ≠ some 0x30 then .error .invalidSignature
  else if signature.get? 2 ≠ some 0x02 then .error .invalidRMarker
  else
    match signature.get? 3 with
    | none =>
      -- rLength is undefined: `offset += rLength` poisons the offset to NaN
      -- and the `s` marker comparison reads `undefined`, so it throws.
      .error .invalidSMarker
    | some rLen =>
      let rRaw := (signature.drop 4).take rLen
      if signature.get? (4 + rLen) ≠ some 0x02 then .error .invalidSMarker
      else
        let sRaw := match signature.get? (5 + rLen) with
          | none => []        -- sLength undefined: `slice(offset, NaN)` = empty
          | some sLen => (signature.drop (6 + rLen)).take sLen
        let r1 := dropZeros32 rRaw
        let s1 := dropZeros32 sRaw
        let r := padTo32 r1
        let s2 := padTo32 s1
        let sVal := toNatBE s2
        let s := if halfN < sVal then lowSBytes sVal else s2
        .ok (r, s)

end KmsWallet

namespace KmsWalletV2

/-- `normalizeSignatureComponent` from the `KmsWallet` variant in
`KmsWalletProvider.ts`: strip DER zero padding, then left-pad to 32 bytes. -/
def normalizeSignatureComponent (component : List Nat) : List Nat :=
  padTo32 (dropZeros32 component)

/-- `normalizeAndLowS` from the `KmsWallet` variant in
`KmsWalletProvider.ts`: normalize, then flip `s` to `n - s` when its value
exceeds `n / 2`. -/
def normalizeAndLowS (s : List Nat) : List Nat :=
  let normalized := normalizeSignatureComponent s
  let sVal := toNatBE normalized
  if halfN < sVal then lowSBytes sVal else normalized

/-- `parseDERSignature` from the `KmsWallet` variant in
`KmsWalletProvider.ts`: the same DER walk, delegating to
`normalizeSignatureComponent` and `normalizeAndLowS`. -/
def parseDERSignature (signature : List Nat) : Except DerError (List Nat × List Nat) :=
  if signature.get? 0 ≠ some 0x30 then .error .invalidSignature
  else if signature.get? 2 ≠ some 0x02 then .error .invalidRMarker
  else
    match signature.get? 3 with
    | none => .error .invalidSMarker
    | some rLen =>
      let rRaw := (signature.drop 4).take rLen
      if signature.get? (4 + rLen) ≠ some 0x02 then .error .invalidSMarker
      else
        let sRaw := match signature.get? (5 + rLen) with
          | none => []
          | some sLen => (signature.drop (6 + rLen)).take sLen
        let r := normalizeSignatureComponent rRaw
        let s := normalizeAndLowS sRaw
        .ok (r, s)

end KmsWalletV2

/-!
## Recovery-id search (`findRecoveryParam`, identical in both classes)

`ethers.Signature.from` followed by `ethers.recoverAddress` is external
elliptic-curve code; it is a parameter `recover` of the embedding, returning
`Except Unit (List Char)` — an exception from either library call is caught
by the loop body and treated as a non-match.
-/

/-- `String.prototype.toLowerCase` restricted to the ASCII range that
Ethereum address strings use. -/
def jsToLower (s : List Char) : List Char :=
  s.map fun c => if 65 ≤ c.toNat ∧ c.toNat ≤ 90 then Char.ofNat (c.toNat + 32) else c

namespace KmsWallet

/-- One iteration of the `for (let v = 27; v <= 28; v++)` body: recover at
`v` and compare case-insensitively; a thrown exception is a non-match. -/
def tryRecover (recover : List Nat → List Nat → List Nat → Nat → Except Unit (List Char))
    (digest r s : List Nat) (expectedAddress : List Char) (v : Nat) : Bool :=
  match recover digest r s v with
  | .ok a => jsToLower a = jsToLower expectedAddress
  | .error _ => false

/-- `findRecoveryParam` from `KmsWallet.ts`: try `v = 27` then `v = 28`,
return the first match, otherwise throw
`'Failed to find valid recovery parameter'` (modelled as `.error ()`). -/
def findRecoveryParam (recover : List Nat → List Nat → List Nat → Nat → Except Unit (List Char))
    (digest r s : List Nat) (expectedAddress : List Char) : Except Unit Nat :=
  if tryRecover recover digest r s expectedAddress 27 then .ok 27
  else if tryRecover recover digest r s expectedAddress 28 then .ok 28
  else .error ()

/-- Reading of the claim: candidate `v` recovers the expected address. -/
def recoversExpected (recover : List Nat → List Nat → List Nat → Nat → Except Unit (List Char))
    (digest r s : List Nat) (expectedAddress : List Char) (v : Nat) : Prop :=
  ∃ a, recover digest r s v = .ok a ∧ jsToLower a = jsToLower expectedAddress

/-!
### Cached state of the single-key identity

`KmsWallet` owns `cachedPublicKey` and `cachedAddress`.  KMS and the
keccak / checksum-format library functions are parameters.  Each stateful
method returns its result (or error) together with the object state after
the call, mirroring field mutation surviving a thrown exception.
-/

structure WalletDeps where
  /-- `SignCommand` for a digest; `none` models a response with no
  `Signature` field (`'Failed to sign with KMS'`). -/
  kmsSign : List Nat → Option (List Nat)
  /-- `GetPublicKeyCommand` response `PublicKey`; `none` models a missing
  field (`'Failed to get public key from KMS'`). -/
  kmsPublicKey : Option (List Nat)
  /-- `ethers.keccak256` as the hex string it returns (starting `0x`). -/
  keccakHexOf : List Nat → List Char
  /-- `ethers.getAddress`, the mixed-case checksum formatter. -/
  checksumAddress : List Char → List Char
  /-- `ethers.Signature.from` + `ethers.recoverAddress` at `(digest, r, s, v)`. -/
  recoverAddress : List Nat → List Nat → List Nat → Nat → Except Unit (List Char)

structure WalletState where
  cachedPublicKey : Option (List Nat)
  cachedAddress : Option (List Char)
  deriving DecidableEq, Repr

/-- The constructor caches nothing. -/
def initialWalletState : WalletState := ⟨none, none⟩

/-- `getPublicKey`: serve the cache, else take the last 65 bytes of the DER
`SubjectPublicKeyInfo` (`publicKeyDer.slice(-65)`) and cache them. -/
def getPublicKeyW (deps : WalletDeps) (st : WalletState) :
    Except Unit (List Nat) × WalletState :=
  match st.cachedPublicKey with
  | some pk => (.ok pk, st)
  | none =>
    match deps.kmsPublicKey with
    | none => (.error (), st)
    | some der =>
      let pk := der.drop (der.length - 65)
      (.ok pk, { st with cachedPublicKey := some pk })

/-- `getAddress`: serve the cache, else keccak the public key without its
`0x04` prefix, take the low 20 bytes (`hash.slice(-40)` on the hex string),
checksum-format, and cache. -/
def getAddressW (deps : WalletDeps) (st : WalletState) :
    Except Unit (List Char) × WalletState :=
  match st.cachedAddress with
  | some a => (.ok a, st)
  | none =>
    match getPublicKeyW deps st with
    | (.error e, st1) => (.error e, st1)
    | (.ok pk, st1) =>
      let hash := deps.keccakHexOf (pk.drop 1)
      let addr := deps.checksumAddress (['0', 'x'] ++ hash.drop (hash.length - 40))
      (.ok addr, { st1 with cachedAddress := some addr })

/-- The distinct failure exits of `signDigest`. -/
inductive SignError
  | kmsFailed                 -- 'Failed to sign with KMS'
  | derError (e : DerError)   -- propagated from parseDERSignature
  | noPublicKey               -- propagated from getPublicKey
  | recoveryNotFound          -- 'Failed to find valid recovery parameter'
  deriving DecidableEq, Repr

/-- `signDigest`: KMS sign, parse the DER signature, resolve the identity's
address, search the recovery parameter, and assemble `(r, s, v)`. -/
def signDigestW (deps : WalletDeps) (digest : List Nat) (st : WalletState) :
    Except SignError (List Nat × List Nat × Nat) × WalletState :=
  match deps.kmsSign digest with
  | none => (.error .kmsFailed, st)
  | some sigBytes =>
    match parseDERSignature sigBytes with
    | .error e => (.error (.derError e), st)
    | .ok (r, s) =>
      match getAddressW deps st with
      | (.error _, st1) => (.error .noPublicKey, st1)
      | (.ok addr, st1) =>
        match findRecoveryParam deps.recoverAddress digest r s addr with
        | .error _ => (.error .recoveryNotFound, st1)
        | .ok v => (.ok (r, s, v), st1)

end KmsWallet

/-!
## The HD identity (`KmsHdWallet.ts`)

`ethers.Mnemonic.fromEntropy` is modelled by the phrase it yields (`none`
models a throw on an invalid entropy length), `ethers.HDNodeWallet` values
live in an abstract type `M`, and `new ethers.Wallet(privateKey)` lands in
an abstract type `W`.  Each stateful method returns its result together
with the object state after the call.
-/

namespace KmsHdWallet

structure HdDeps (M W : Type) where
  /-- KMS `SignCommand` for a digest; `none` models a response with no
  `Signature` field (`'Failed to generate signature from KMS'`). -/
  oracleSign : List Nat → Option (List Nat)
  /-- `ethers.hashMessage` followed by decoding the hex string to bytes. -/
  hashMessageBytes : List Nat → List Nat
  /-- `ethers.keccak256` followed by decoding the hex string to bytes. -/
  keccakBytes : List Nat → List Nat
  /-- `ethers.Mnemonic.fromEntropy(e).phrase`; `none` models the throw on an
  entropy length outside {16, 20, 24, 28, 32}. -/
  fromEntropyPhrase : List Nat → Option (List Char)
  /-- `ethers.HDNodeWallet.fromPhrase`. -/
  fromPhrase : List Char → M
  /-- `node.derivePath(path)`. -/
  derivePath : M → List Char → M
  /-- `node.address`. -/
  addressOf : M → List Char
  /-- `node.publicKey`. -/
  publicKeyOf : M → List Char
  /-- `node.privateKey`. -/
  privateKeyOf : M → List Char
  /-- `node.signMessage(message)`. -/
  signMessageOf : M → List Nat → List Char
  /-- `node.signTransaction(tx)`. -/
  signTransactionOf : M → List Nat → List Char
  /-- `new ethers.Wallet(privateKey)` (provider attachment is external). -/
  mkWallet : List Char → W

structure HdState (M : Type) where
  cachedSeed : Option (List Nat)
  cachedMasterNode : Option M
  deriving DecidableEq, Repr

/-- The constructor caches neither the seed nor the master node. -/
def initialHdState (M : Type) : HdState M := ⟨none, none⟩

/-- The fixed ASCII label `'BIP32_HD_WALLET_MASTER_SEED_DERIVATION'`. -/
def seedMessage : List Nat :=
  "BIP32_HD_WALLET_MASTER_SEED_DERIVATION".data.map Char.toNat

/-- The digest signed for seed derivation: the Ethereum personal-message
hash of the fixed label, decoded to bytes. -/
def seedDigest {M W : Type} (deps : HdDeps M W) : List Nat :=
  deps.hashMessageBytes seedMessage

/-- `deriveSeed`: serve the cached seed, else sign the fixed digest through
KMS and cache the raw signature bytes as the seed. -/
def deriveSeed {M W : Type} (deps : HdDeps M W) (st : HdState M) :
    Except Unit (List Nat) × HdState M :=
  match st.cachedSeed with
  | some s => (.ok s, st)
  | none =>
    match deps.oracleSign (seedDigest deps) with
    | none => (.error (), st)
    | some sig => (.ok sig, { st with cachedSeed := some sig })

/-- The seed-to-entropy step inside `getMasterNode`: hash seeds longer than
32 or shorter than 16 bytes down to the keccak output, use others as-is. -/
def entropyOfSeed (keccakBytes : List Nat → List Nat) (seed : List Nat) : List Nat :=
  if 32 < seed.length then keccakBytes seed
  else if seed.length < 16 then keccakBytes seed
  else seed

/-- `getMasterNode`: serve the cached master node, else derive the seed,
turn it into entropy, build the mnemonic and the HD node from its phrase,
and cache the node. -/
def getMasterNode {M W : Type} (deps : HdDeps M W) (st : HdState M) :
    Except Unit M × HdState M :=
  match st.cachedMasterNode with
  | some m => (.ok m, st)
  | none =>
    match deriveSeed deps st with
    | (.error e, st1) => (.error e, st1)
    | (.ok seed, st1) =>
      let entropy := entropyOfSeed deps.keccakBytes seed
      match deps.fromEntropyPhrase entropy with
      | none => (.error (), st1)
      | some phrase =>
        let master := deps.fromPhrase phrase
        (.ok master, { st1 with cachedMasterNode := some master })

/-- `basePath.startsWith('m/') ? basePath.slice(2) : basePath`. -/
def relativePath (basePath : List Char) : List Char :=
  if basePath.take 2 = ['m', '/'] then basePath.drop 2 else basePath

/-- The derivation path handed to `derivePath`:
`` `${relativePath}/${index}` ``. -/
def fullPath (basePath : List Char) (index : Nat) : List Char :=
  relativePath basePath ++ '/' :: Nat.toDigits 10 index

/-- The Ethereum-standard default base path `m/44'/60'/0'/0` from the
constructor. -/
def defaultBasePath : List Char :=
  ['m', '/', '4', '4', Char.ofNat 39, '/', '6', '0', Char.ofNat 39, '/',
   '0', Char.ofNat 39, '/', '0']

/-- `config.basePath || "m/44'/60'/0'/0"` — `||` also replaces an empty
string by the default. -/
def constructorBasePath (configBasePath : Option (List Char)) : List Char :=
  match configBasePath with
  | none => defaultBasePath
  | some p => if p = [] then defaultBasePath else p

/-- `deriveChild`: fetch the master node and walk `basePath/index`. -/
def deriveChild {M W : Type} (deps : HdDeps M W) (basePath : List Char)
    (index : Nat) (st : HdState M) : Except Unit M × HdState M :=
  match getMasterNode deps st with
  | (.error e, st1) => (.error e, st1)
  | (.ok m, st1) => (.ok (deps.derivePath m (fullPath basePath index)), st1)

/-- `getAddress(index)`. -/
def getAddress {M W : Type} (deps : HdDeps M W) (basePath : List Char)
    (index : Nat) (st : HdState M) : Except Unit (List Char) × HdState M :=
  match deriveChild deps basePath index st with
  | (.error e, st1) => (.error e, st1)
  | (.ok child, st1) => (.ok (deps.addressOf child), st1)

/-- `getPrivateKey(index)`. -/
def getPrivateKey {M W : Type} (deps : HdDeps M W) (basePath : List Char)
    (index : Nat) (st : HdState M) : Except Unit (List Char) × HdState M :=
  match deriveChild deps basePath index st with
  | (.error e, st1) => (.error e, st1)
  | (.ok child, st1) => (.ok (deps.privateKeyOf child), st1)

/-- `getPublicKey(index)`. -/
def getPublicKey {M W : Type} (deps : HdDeps M W) (basePath : List Char)
    (index : Nat) (st : HdState M) : Except Unit (List Char) × HdState M :=
  match deriveChild deps basePath index st with
  | (.error e, st1) => (.error e, st1)
  | (.ok child, st1) => (.ok (deps.publicKeyOf child), st1)

/-- `signMessage(index, message)`. -/
def signMessage {M W : Type} (deps : HdDeps M W) (basePath : List Char)
    (index : Nat) (message : List Nat) (st : HdState M) :
    Except Unit (List Char) × HdState M :=
  match deriveChild deps basePath index st with
  | (.error e, st1) => (.error e, st1)
  | (.ok child, st1) => (.ok (deps.signMessageOf child message), st1)

/-- `signTransaction(index, transaction)`. -/
def signTransaction {M W : Type} (deps : HdDeps M W) (basePath : List Char)
    (index : Nat) (tx : List Nat) (st : HdState M) :
    Except Unit (List Char) × HdState M :=
  match deriveChild deps basePath index st with
  | (.error e, st1) => (.error e, st1)
  | (.ok child, st1) => (.ok (deps.signTransactionOf child tx), st1)

/-- `getWallet(index)` (without the optional provider connection). -/
def getWallet {M W : Type} (deps : HdDeps M W) (basePath : List Char)
    (index : Nat) (st : HdState M) : Except Unit W × HdState M :=
  match deriveChild deps basePath index st with
  | (.error e, st1) => (.error e, st1)
  | (.ok child, st1) => (.ok (deps.mkWallet (deps.privateKeyOf child)), st1)

/-- `getAddresses(count, startIndex)`: sequential `getAddress` calls for
indices `startIndex, startIndex+1, …`; an exception aborts the loop. -/
def getAddresses {M W : Type} (deps : HdDeps M W) (basePath : List Char)
    (count startIndex : Nat) (st : HdState M) :
    Except Unit (List (List Char)) × HdState M :=
  match count with
  | 0 => (.ok [], st)
  | c + 1 =>
    match getAddress deps basePath startIndex st with
    | (.error e, st1) => (.error e, st1)
    | (.ok a, st1) =>
      match getAddresses deps basePath c (startIndex + 1) st1 with
      | (.error e, st2) => (.error e, st2)
      | (.ok as, st2) => (.ok (a :: as), st2)

/-- The derivation-dependent operations of an HD identity. -/
inductive HdOp
  | getAddr (i : Nat)
  | getPub (i : Nat)
  | getPriv (i : Nat)
  | signMsg (i : Nat) (message : List Nat)
  | signTx (i : Nat) (tx : List Nat)
  | getWal (i : Nat)
  | getAddrs (count startIndex : Nat)

/-- Run an operation, keeping only its success and its state effect. -/
def applyOp {M W : Type} (deps : HdDeps M W) (basePath : List Char)
    (op : HdOp) (st : HdState M) : Except Unit Unit × HdState M :=
  match op with
  | .getAddr i => let r := getAddress deps basePath i st; (r.1.map fun _ => (), r.2)
  | .getPub i => let r := getPublicKey deps basePath i st; (r.1.map fun _ => (), r.2)
  | .getPriv i => let r := getPrivateKey deps basePath i st; (r.1.map fun _ => (), r.2)
  | .signMsg i msg => let r := signMessage deps basePath i msg st; (r.1.map fun _ => (), r.2)
  | .signTx i tx => let r := signTransaction deps basePath i tx st; (r.1.map fun _ => (), r.2)
  | .getWal i => let r := getWallet deps basePath i st; (r.1.map fun _ => (), r.2)
  | .getAddrs c s => let r := getAddresses deps basePath c s st; (r.1.map fun _ => (), r.2)

/-- An operation that actually touches the derivation tree (a batch of zero
addresses derives nothing). -/
def opDerives : HdOp → Prop
  | .getAddrs c _ => 0 < c
  | _ => True

/-- Replace the signing oracle, leaving every other dependency in place. -/
def withOracle {M W : Type} (deps : HdDeps M W)
    (o : List Nat → Option (List Nat)) : HdDeps M W :=
  { deps with oracleSign := o }

/-- A concrete dependency bundle over `M = Nat`, `W = Nat`, used to witness
the theorems: the oracle answers every digest with `oracleOut`, and the
mnemonic step accepts exactly the five BIP39 entropy lengths, as
`ethers.Mnemonic.fromEntropy` does. -/
def natHdDeps (oracleOut : Option (List Nat)) : HdDeps Nat Nat :=
  { oracleSign := fun _ => oracleOut
    hashMessageBytes := fun l => l
    keccakBytes := fun _ => List.replicate 32 0
    fromEntropyPhrase := fun e =>
      if e.length = 16 ∨ e.length = 20 ∨ e.length = 24 ∨ e.length = 28 ∨ e.length = 32
      then some ['w'] else none
    fromPhrase := fun _ => 0
    derivePath := fun m _ => m
    addressOf := fun _ => ['a']
    publicKeyOf := fun _ => ['p']
    privateKeyOf := fun _ => ['k']
    signMessageOf := fun _ _ => ['s']
    signTransactionOf := fun _ _ => ['t']
    mkWallet := fun _ => 0 }

end KmsHdWallet

/-- Helper value function for the hex-digit lists produced by
`BigInt.toString(16)`: the number a most-significant-first base-16 digit
list denotes. -/
def toNatBE16 (l : List Nat) : Nat :=
  l.foldl (fun a d => a * 16 + d) 0

instance {ε α : Type} [DecidableEq ε] [DecidableEq α] : DecidableEq (Except ε α) := fun x y =>
  match x, y with
  | .ok a, .ok b =>
    if h : a = b then isTrue (congrArg Except.ok h)
    else isFalse fun hc => h (Except.ok.inj hc)
  | .error a, .error b =>
    if h : a = b then isTrue (congrArg Except.error h)
    else isFalse fun hc => h (Except.error.inj hc)
  | .ok _, .error _ => isFalse fun hc => Except.noConfusion hc
  | .error _, .ok _ => isFalse fun hc => Except.noConfusion hc

/-- A concrete single-key dependency bundle used to witness the theorems:
KMS answers every sign request with `sigOut` and hands out a fixed 65-byte
public key; recovery always throws. -/
def natWalletDeps (sigOut : List Nat) : KmsWallet.WalletDeps :=
  { kmsSign := fun _ => some sigOut
    kmsPublicKey := some (List.replicate 65 4)
    keccakHexOf := fun _ => ['0', 'x']
    checksumAddress := fun a => a
    recoverAddress := fun _ _ _ _ => .error () }

/-!
## Supporting lemmas: byte values, stripping, padding
-/

theorem foldl_byte_acc (l : List Nat) (a : Nat) :
    l.foldl (fun x b => x * 256 + b) a =
      a * 256 ^ l.length + l.foldl (fun x b => x * 256 + b) 0 := by
  induction l generalizing a with
  | nil => simp
  | cons b t ih =>
    simp only [List.foldl_cons, List.length_cons]
    rw [ih (a * 256 + b), ih (0 * 256 + b)]
    ring

theorem toNatBE_cons (b : Nat) (l : List Nat) :
    toNatBE (b :: l) = b * 256 ^ l.length + toNatBE l := by
  simp only [toNatBE, List.foldl_cons]
  simpa using foldl_byte_acc l b

theorem toNatBE_replicate_zero_append (k : Nat) (l : List Nat) :
    toNatBE (List.replicate k 0 ++ l) = toNatBE l := by
  induction k with
  | zero => simp
  | succ k ih => simpa [List.replicate_succ, toNatBE_cons] using ih

theorem toNatBE_dropZeros32 (l : List Nat) : toNatBE (dropZeros32 l) = toNatBE l := by
  induction l with
  | nil => rfl
  | cons b t ih =>
    simp only [dropZeros32]
    split
    · next h =>
      obtain ⟨-, rfl⟩ := h
      simpa [toNatBE_cons] using ih
    · rfl

theorem dropZeros32_length_le (l : List Nat) (h : toNatBE l < 256 ^ 32) :
    (dropZeros32 l).length ≤ 32 := by
  induction l with
  | nil => simp [dropZeros32]
  | cons b t ih =>
    simp only [dropZeros32]
    split
    · next hc =>
      obtain ⟨-, rfl⟩ := hc
      apply ih
      simpa [toNatBE_cons] using h
    · next hc =>
      by_cases hl : 32 < t.length + 1
      · have hb : b ≠ 0 := fun hb0 => hc ⟨hl, hb0⟩
        exfalso
        have hpow : 256 ^ 32 ≤ 256 ^ t.length :=
          Nat.pow_le_pow_right (by norm_num) (by omega)
        have hle : 256 ^ t.length ≤ b * 256 ^ t.length :=
          Nat.le_mul_of_pos_left _ (Nat.pos_of_ne_zero hb)
        have hcons := toNatBE_cons b t
        omega
      · simp only [List.length_cons]
        omega

theorem mem_dropZeros32 (l : List Nat) : ∀ b ∈ dropZeros32 l, b ∈ l := by
  induction l with
  | nil => simp [dropZeros32]
  | cons c t ih =>
    simp only [dropZeros32]
    split
    · exact fun b hb => List.mem_cons_of_mem _ (ih b hb)
    · exact fun b hb => hb

theorem padTo32_length (l : List Nat) (h : l.length ≤ 32) :
    (padTo32 l).length = 32 := by
  simp only [padTo32]
  split
  · simp only [List.length_append, List.length_replicate]
    omega
  · omega

theorem toNatBE_padTo32 (l : List Nat) : toNatBE (padTo32 l) = toNatBE l := by
  simp only [padTo32]
  split
  · exact toNatBE_replicate_zero_append _ _
  · rfl

theorem mem_padTo32 (l : List Nat) : ∀ b ∈ padTo32 l, b = 0 ∨ b ∈ l := by
  simp only [padTo32]
  split
  · intro b hb
    rcases List.mem_append.mp hb with h | h
    · exact Or.inl (List.eq_of_mem_replicate h)
    · exact Or.inr h
  · exact fun b hb => Or.inr hb

/-!
## Supporting lemmas: the hex-string round trip
-/

theorem foldl_hex_acc (l : List Nat) (a : Nat) :
    l.foldl (fun x d => x * 16 + d) a =
      a * 16 ^ l.length + l.foldl (fun x d => x * 16 + d) 0 := by
  induction l generalizing a with
  | nil => simp
  | cons d t ih =>
    simp only [List.foldl_cons, List.length_cons]
    rw [ih (a * 16 + d), ih (0 * 16 + d)]
    ring

theorem toNatBE16_cons (d : Nat) (l : List Nat) :
    toNatBE16 (d :: l) = d * 16 ^ l.length + toNatBE16 l := by
  simp only [toNatBE16, List.foldl_cons]
  simpa using foldl_hex_acc l d

theorem toNatBE16_replicate_zero_append (k : Nat) (l : List Nat) :
    toNatBE16 (List.replicate k 0 ++ l) = toNatBE16 l := by
  induction k with
  | zero => simp
  | succ k ih => simpa [List.replicate_succ, toNatBE16_cons] using ih

theorem toNatBE16_append_singleton (l : List Nat) (d : Nat) :
    toNatBE16 (l ++ [d]) = 16 * toNatBE16 l + d := by
  simp only [toNatBE16, List.foldl_append, List.foldl_cons, List.foldl_nil]
  ring

theorem hexDigitsAux_val (fuel : Nat) :
    ∀ m, m ≤ fuel → toNatBE16 (hexDigitsAux fuel m) = m := by
  induction fuel with
  | zero =>
    intro m hm
    interval_cases m
    rfl
  | succ fuel ih =>
    intro m hm
    simp only [hexDigitsAux]
    split
    · next h => simp [toNatBE16, h]
    · next h =>
      rw [toNatBE16_append_singleton, ih (m / 16) (by omega)]
      omega

theorem hexDigitsAux_lt_16 (fuel : Nat) :
    ∀ m, ∀ d ∈ hexDigitsAux fuel m, d < 16 := by
  induction fuel with
  | zero => simp [hexDigitsAux]
  | succ fuel ih =>
    intro m d hd
    simp only [hexDigitsAux] at hd
    split at hd
    · simp at hd
    · rcases List.mem_append.mp hd with h | h
      · exact ih _ _ h
      · simp only [List.mem_singleton] at h
        omega

theorem hexDigitsAux_length (fuel : Nat) :
    ∀ m k, m < 16 ^ k → (hexDigitsAux fuel m).length ≤ k := by
  induction fuel with
  | zero =>
    intro m k _
    simp [hexDigitsAux]
  | succ fuel ih =>
    intro m k hm
    simp only [hexDigitsAux]
    split
    · simp
    · next h =>
      cases k with
      | zero =>
        simp only [pow_zero, Nat.lt_one_iff] at hm
        exact absurd hm h
      | succ k =>
        simp only [List.length_append, List.length_cons, List.length_nil]
        have hdiv : m / 16 < 16 ^ k := by
          have h16 : m < 16 ^ k * 16 := by
            rw [← pow_succ]
            exact hm
          exact (Nat.div_lt_iff_lt_mul (by norm_num)).mpr h16
        have := ih (m / 16) k hdiv
        omega

theorem hexDigits_val (m : Nat) : toNatBE16 (hexDigits m) = m := by
  simp only [hexDigits]
  split
  · next h => simp [toNatBE16, h]
  · exact hexDigitsAux_val m m le_rfl

theorem hexDigits_lt_16 (m : Nat) : ∀ d ∈ hexDigits m, d < 16 := by
  simp only [hexDigits]
  split
  · simp
  · exact hexDigitsAux_lt_16 m m

theorem hexDigits_length_le (m k : Nat) (h : m < 16 ^ k) (hk : 0 < k) :
    (hexDigits m).length ≤ k := by
  simp only [hexDigits]
  split
  · simpa using hk
  · exact hexDigitsAux_length m m k h

theorem hexCharVal_digitToChar (d : Nat) (h : d < 16) :
    hexCharVal (digitToChar d) = some d := by
  interval_cases d <;> decide

theorem digitToChar_zero : digitToChar 0 = Char.ofNat 48 := rfl

theorem bufferFromHex_spec :
    ∀ (n : Nat) (ds : List Nat), ds.length = 2 * n → (∀ d ∈ ds, d < 16) →
      (bufferFromHex (ds.map digitToChar)).length = n ∧
      toNatBE (bufferFromHex (ds.map digitToChar)) = toNatBE16 ds ∧
      ∀ b ∈ bufferFromHex (ds.map digitToChar), b < 256 := by
  intro n
  induction n with
  | zero =>
    intro ds hlen _
    have hnil : ds = [] := List.length_eq_zero.mp (by omega)
    subst hnil
    exact ⟨rfl, rfl, by simp [bufferFromHex]⟩
  | succ n ih =>
    intro ds hlen hlt
    cases ds with
    | nil => simp at hlen
    | cons d1 tail =>
      cases tail with
      | nil =>
        simp only [List.length_cons, List.length_nil] at hlen
        omega
      | cons d2 rest =>
        have hd1 : d1 < 16 := hlt d1 (by simp)
        have hd2 : d2 < 16 := hlt d2 (by simp)
        have hrest : ∀ d ∈ rest, d < 16 := fun d hd => hlt d (by simp [hd])
        have hrlen : rest.length = 2 * n := by
          simp only [List.length_cons] at hlen
          omega
        obtain ⟨ihl, ihv, ihb⟩ := ih rest hrlen hrest
        have hunfold : bufferFromHex ((d1 :: d2 :: rest).map digitToChar) =
            (16 * d1 + d2) :: bufferFromHex (rest.map digitToChar) := by
          simp [bufferFromHex, hexCharVal_digitToChar d1 hd1,
            hexCharVal_digitToChar d2 hd2]
        refine ⟨?_, ?_, ?_⟩
        · rw [hunfold]
          simp [ihl]
        · rw [hunfold, toNatBE_cons, ihl, ihv, toNatBE16_cons, toNatBE16_cons]
          have h256 : (256 : Nat) ^ n = 16 ^ (2 * n) := by
            rw [pow_mul]
            norm_num
          simp only [List.length_cons, hrlen, h256, pow_succ]
          ring
        · intro b hb
          rw [hunfold] at hb
          rcases List.mem_cons.mp hb with rfl | h
          · omega
          · exact ihb b h

theorem natHexBuffer_spec (w : Nat) (h : w < 16 ^ 64) :
    (bufferFromHex (padStart64 (natToHexChars w))).length = 32 ∧
    toNatBE (bufferFromHex (padStart64 (natToHexChars w))) = w ∧
    ∀ b ∈ bufferFromHex (padStart64 (natToHexChars w)), b < 256 := by
  have hlen : (hexDigits w).length ≤ 64 := hexDigits_length_le w 64 h (by norm_num)
  have hmap : padStart64 (natToHexChars w) =
      (List.replicate (64 - (hexDigits w).length) 0 ++ hexDigits w).map digitToChar := by
    simp [padStart64, natToHexChars, List.map_append, List.map_replicate, digitToChar_zero]
  have hDlen : (List.replicate (64 - (hexDigits w).length) 0 ++ hexDigits w).length = 2 * 32 := by
    simp only [List.length_append, List.length_replicate]
    omega
  have hDlt : ∀ d ∈ List.replicate (64 - (hexDigits w).length) 0 ++ hexDigits w, d < 16 := by
    intro d hd
    rcases List.mem_append.mp hd with h1 | h1
    · have := List.eq_of_mem_replicate h1
      omega
    · exact hexDigits_lt_16 w d h1
  obtain ⟨l1, v1, b1⟩ := bufferFromHex_spec 32 _ hDlen hDlt
  rw [hmap]
  refine ⟨l1, ?_, b1⟩
  rw [v1, toNatBE16_replicate_zero_append, hexDigits_val]

theorem secpN_lt_pow : secpN < 256 ^ 32 := by norm_num [secpN]

theorem secpN_eq_two_halfN : secpN = 2 * halfN + 1 := by norm_num [secpN, halfN]

theorem lowSBytes_spec (sVal : Nat) (h : sVal ≤ secpN) :
    (lowSBytes sVal).length = 32 ∧ toNatBE (lowSBytes sVal) = secpN - sVal ∧
    ∀ b ∈ lowSBytes sVal, b < 256 := by
  have hnn : ¬((secpN : Int) - (sVal : Int) < 0) := by
    omega
  have ht : ((secpN : Int) - (sVal : Int)).toNat = secpN - sVal := by omega
  have hw : secpN - sVal < 16 ^ 64 := by
    have h1 : secpN < 16 ^ 64 := by norm_num [secpN]
    omega
  unfold lowSBytes intToHexChars
  rw [if_neg hnn, ht]
  exact natHexBuffer_spec _ hw

theorem normalizeSignatureComponent_spec (c : List Nat) (h : toNatBE c < 256 ^ 32) :
    (KmsWalletV2.normalizeSignatureComponent c).length = 32 ∧
    toNatBE (KmsWalletV2.normalizeSignatureComponent c) = toNatBE c ∧
    ∀ b ∈ KmsWalletV2.normalizeSignatureComponent c, b = 0 ∨ b ∈ c := by
  unfold KmsWalletV2.normalizeSignatureComponent
  refine ⟨padTo32_length _ (dropZeros32_length_le c h), ?_, ?_⟩
  · rw [toNatBE_padTo32, toNatBE_dropZeros32]
  · intro b hb
    rcases mem_padTo32 _ b hb with rfl | h2
    · exact Or.inl rfl
    · exact Or.inr (mem_dropZeros32 c b h2)

theorem normalizeAndLowS_eq (s : List Nat) :
    KmsWalletV2.normalizeAndLowS s =
      if halfN < toNatBE (KmsWalletV2.normalizeSignatureComponent s)
      then lowSBytes (toNatBE (KmsWalletV2.normalizeSignatureComponent s))
      else KmsWalletV2.normalizeSignatureComponent s := rfl

/-- C1: for every DER-parsed component pair whose integer values are below
the secp256k1 order, the adapter outputs exactly 32 bytes per component;
the output `r` is the left-zero-padded big-endian encoding of the parsed
`r` (same integer value, 32 bytes, all entries bytes), and the output `s`
keeps the parsed value when it is at most `n/2` and is replaced by `n − s`
otherwise, so the output `s` value never exceeds `n/2`. -/
theorem c1_adapter_output_spec (rRaw sRaw : List Nat)
    (hrb : ∀ b ∈ rRaw, b < 256) (hsb : ∀ b ∈ sRaw, b < 256)
    (hr : toNatBE rRaw < secpN) (hs : toNatBE sRaw < secpN) :
    ((KmsWalletV2.normalizeSignatureComponent rRaw).length = 32 ∧
      toNatBE (KmsWalletV2.normalizeSignatureComponent rRaw) = toNatBE rRaw ∧
      (∀ b ∈ KmsWalletV2.normalizeSignatureComponent rRaw, b < 256)) ∧
    ((KmsWalletV2.normalizeAndLowS sRaw).length = 32 ∧
      (∀ b ∈ KmsWalletV2.normalizeAndLowS sRaw, b < 256) ∧
      toNatBE (KmsWalletV2.normalizeAndLowS sRaw) =
        (if toNatBE sRaw ≤ halfN then toNatBE sRaw else secpN - toNatBE sRaw) ∧
      toNatBE (KmsWalletV2.normalizeAndLowS sRaw) ≤ halfN) := by
  have hr32 : toNatBE rRaw < 256 ^ 32 := lt_trans hr secpN_lt_pow
  have hs32 : toNatBE sRaw < 256 ^ 32 := lt_trans hs secpN_lt_pow
  obtain ⟨rl, rv, rb⟩ := normalizeSignatureComponent_spec rRaw hr32
  obtain ⟨sl, sv, sb⟩ := normalizeSignatureComponent_spec sRaw hs32
  have hhalf := secpN_eq_two_halfN
  refine ⟨⟨rl, rv, ?_⟩, ?_⟩
  · intro b hb
    rcases rb b hb with rfl | h
    · omega
    · exact hrb b h
  · rw [normalizeAndLowS_eq]
    by_cases hc : halfN < toNatBE (KmsWalletV2.normalizeSignatureComponent sRaw)
    · rw [if_pos hc]
      have hle : toNatBE (KmsWalletV2.normalizeSignatureComponent sRaw) ≤ secpN := by
        rw [sv]; omega
      obtain ⟨ll, lv, lb⟩ := lowSBytes_spec _ hle
      rw [sv] at hc
      refine ⟨ll, lb, ?_, ?_⟩
      · rw [lv, sv, if_neg (by omega)]
      · rw [lv, sv]; omega
    · rw [if_neg hc]
      rw [sv] at hc
      refine ⟨sl, ?_, ?_, ?_⟩
      · intro b hb
        rcases sb b hb with rfl | h
        · omega
        · exact hsb b h
      · rw [sv, if_pos (by omega)]
      · rw [sv]; omega

/-- Witness for `c1_adapter_output_spec` at the parsed components `[1]`
and `[2]`. -/
theorem c1_adapter_output_spec_witness :
    ((∀ b ∈ ([1] : List Nat), b < 256) ∧ (∀ b ∈ ([2] : List Nat), b < 256) ∧
      toNatBE [1] < secpN ∧ toNatBE [2] < secpN) ∧
    (((KmsWalletV2.normalizeSignatureComponent [1]).length = 32 ∧
      toNatBE (KmsWalletV2.normalizeSignatureComponent [1]) = toNatBE [1] ∧
      (∀ b ∈ KmsWalletV2.normalizeSignatureComponent [1], b < 256)) ∧
    ((KmsWalletV2.normalizeAndLowS [2]).length = 32 ∧
      (∀ b ∈ KmsWalletV2.normalizeAndLowS [2], b < 256) ∧
      toNatBE (KmsWalletV2.normalizeAndLowS [2]) =
        (if toNatBE [2] ≤ halfN then toNatBE [2] else secpN - toNatBE [2]) ∧
      toNatBE (KmsWalletV2.normalizeAndLowS [2]) ≤ halfN)) :=
  ⟨⟨by decide, by decide, by decide, by decide⟩,
    c1_adapter_output_spec [1] [2] (by decide) (by decide) (by decide) (by decide)⟩

/-- C10: the inline parser of `KmsWallet.ts` and the refactored parser of
the `KmsWallet` variant in `KmsWalletProvider.ts` are extensionally equal:
on every input byte sequence they throw the same error or return
byte-identical `(r, s)` pairs. -/
theorem c10_parse_refactoring_equiv (sig : List Nat) :
    KmsWallet.parseDERSignature sig = KmsWalletV2.parseDERSignature sig := rfl

/-- C3 counterexample: a DER buffer whose `r` INTEGER is 33 bytes long with
a non-zero leading byte parses successfully — the 33-byte `r` is returned
as a value, and no `ValueTooLarge` error exists to be raised. -/
theorem c3_counterexample :
    KmsWalletV2.parseDERSignature
        ([0x30, 0x26, 0x02, 0x21] ++ (1 :: List.replicate 32 0) ++ [0x02, 0x01, 0x05]) =
      .ok (1 :: List.replicate 32 0, List.replicate 31 0 ++ [5]) ∧
    32 < (dropZeros32 (1 :: List.replicate 32 0)).length ∧
    (1 :: List.replicate 32 0).length = 33 := by decide

/-- C3 amended: there is no `ValueTooLarge` failure; when the parsed
integer still does not fit in 32 bytes after stripping leading zero bytes,
`normalizeSignatureComponent` returns the over-long stripped buffer
unchanged instead of raising an error. -/
theorem c3_amended_no_value_too_large (c : List Nat)
    (h : 32 < (dropZeros32 c).length) :
    KmsWalletV2.normalizeSignatureComponent c = dropZeros32 c := by
  unfold KmsWalletV2.normalizeSignatureComponent padTo32
  rw [if_neg (by omega)]

/-- Witness for `c3_amended_no_value_too_large` at a 33-byte component. -/
theorem c3_amended_no_value_too_large_witness :
    32 < (dropZeros32 (1 :: List.replicate 32 0)).length ∧
    KmsWalletV2.normalizeSignatureComponent (1 :: List.replicate 32 0) =
      dropZeros32 (1 :: List.replicate 32 0) :=
  ⟨by decide, c3_amended_no_value_too_large _ (by decide)⟩

/-- C4 counterexample: a buffer whose declared `s` length (32) runs past
the end of the 7-byte input parses successfully — the missing `s` bytes are
silently clamped away instead of raising `MalformedSignature`. -/
theorem c4_counterexample :
    ([0x30, 0x06, 0x02, 0x01, 0x07, 0x02, 0x20] : List Nat).length = 7 ∧
    ([0x30, 0x06, 0x02, 0x01, 0x07, 0x02, 0x20] : List Nat).get? 6 = some 32 ∧
    KmsWallet.parseDERSignature [0x30, 0x06, 0x02, 0x01, 0x07, 0x02, 0x20] =
      .ok (List.replicate 31 0 ++ [7], List.replicate 32 0) := by decide

/-- C4 amended: `parseDERSignature` fails exactly when the SEQUENCE tag is
not `0x30`, the byte at the `r`-marker position is not `0x02` (or missing),
or the byte at the `s`-marker position is not `0x02` (or missing — which is
how an over-running `r` length surfaces); an `s` length running past the
buffer is clamped silently and does not raise.  For every input whose
first byte differs from `0x30`, `MalformedSignature` is raised and the
whole `signDigest` fails before any recovery attempt: the result does not
depend on the recovery function and the cached state is untouched. -/
theorem c4_amended_parse_errors (sig digest : List Nat)
    (deps : KmsWallet.WalletDeps) (st : KmsWallet.WalletState) :
    ((∃ e, KmsWallet.parseDERSignature sig = .error e) ↔
      (sig.get? 0 ≠ some 0x30 ∨ sig.get? 2 ≠ some 0x02 ∨ sig.get? 3 = none ∨
        ∃ rLen, sig.get? 3 = some rLen ∧ sig.get? (4 + rLen) ≠ some 0x02)) ∧
    (sig.get? 0 ≠ some 0x30 →
      KmsWallet.parseDERSignature sig = .error .invalidSignature) ∧
    (sig.get? 0 ≠ some 0x30 → deps.kmsSign digest = some sig →
      ∀ rec, KmsWallet.signDigestW { deps with recoverAddress := rec } digest st =
        (.error (.derError .invalidSignature), st)) := by
  have hfirst : sig.get? 0 ≠ some 0x30 →
      KmsWallet.parseDERSignature sig = .error .invalidSignature := by
    intro h
    unfold KmsWallet.parseDERSignature
    rw [if_pos h]
  refine ⟨?_, hfirst, ?_⟩
  · unfold KmsWallet.parseDERSignature
    split
    · next h => exact ⟨fun _ => Or.inl h, fun _ => ⟨_, rfl⟩⟩
    · next h0 =>
      split
      · next h => exact ⟨fun _ => Or.inr (Or.inl h), fun _ => ⟨_, rfl⟩⟩
      · next h2 =>
        split
        · next h3 => exact ⟨fun _ => Or.inr (Or.inr (Or.inl h3)), fun _ => ⟨_, rfl⟩⟩
        · next rLen h3 =>
          split
          · next h4 =>
            constructor
            · intro _
              exact Or.inr (Or.inr (Or.inr ⟨rLen, h3, h4⟩))
            · intro _
              exact ⟨_, rfl⟩
          · next h4 =>
            constructor
            · intro ⟨e, he⟩
              simp at he
            · intro hR
              rcases hR with h | h | h | ⟨rLen', hr', hne'⟩
              · exact absurd h h0
              · exact absurd h h2
              · rw [h3] at h
                simp at h
              · rw [h3] at hr'
                rw [Option.some.inj hr'] at h4
                exact absurd hne' h4
  · intro h hk rec
    have hp := hfirst h
    unfold KmsWallet.signDigestW
    simp only [hk, hp]

/-- Witness for `c4_amended_parse_errors` at the one-byte buffer `[0x31]`. -/
theorem c4_amended_parse_errors_witness :
    ([0x31] : List Nat).get? 0 ≠ some 0x30 ∧
    KmsWallet.parseDERSignature [0x31] = .error .invalidSignature ∧
    KmsWallet.signDigestW
        { natWalletDeps [0x31] with recoverAddress := fun _ _ _ _ => .error () } []
        KmsWallet.initialWalletState =
      (.error (.derError .invalidSignature), KmsWallet.initialWalletState) :=
  ⟨by decide,
    (c4_amended_parse_errors [0x31] [] (natWalletDeps [0x31])
      KmsWallet.initialWalletState).2.1 (by decide),
    (c4_amended_parse_errors [0x31] [] (natWalletDeps [0x31])
      KmsWallet.initialWalletState).2.2 (by decide) rfl _⟩

theorem tryRecover_eq_true_iff
    (recover : List Nat → List Nat → List Nat → Nat → Except Unit (List Char))
    (digest r s : List Nat) (expected : List Char) (v : Nat) :
    KmsWallet.tryRecover recover digest r s expected v = true ↔
      KmsWallet.recoversExpected recover digest r s expected v := by
  unfold KmsWallet.tryRecover KmsWallet.recoversExpected
  cases h : recover digest r s v with
  | ok a => simp [h]
  | error e => simp [h]

/-- C2: `findRecoveryParam` tries `v = 27` and then `v = 28` in that order,
comparing the recovered address case-insensitively against the expected
one; it returns the first matching candidate, and throws
`RecoveryParameterNotFound` exactly when neither candidate recovers the
expected address. -/
theorem c2_findRecoveryParam_spec
    (recover : List Nat → List Nat → List Nat → Nat → Except Unit (List Char))
    (digest r s : List Nat) (expected : List Char) :
    (KmsWallet.findRecoveryParam recover digest r s expected = .ok 27 ↔
      KmsWallet.recoversExpected recover digest r s expected 27) ∧
    (KmsWallet.findRecoveryParam recover digest r s expected = .ok 28 ↔
      (¬ KmsWallet.recoversExpected recover digest r s expected 27 ∧
        KmsWallet.recoversExpected recover digest r s expected 28)) ∧
    (KmsWallet.findRecoveryParam recover digest r s expected = .error () ↔
      (¬ KmsWallet.recoversExpected recover digest r s expected 27 ∧
        ¬ KmsWallet.recoversExpected recover digest r s expected 28)) := by
  unfold KmsWallet.findRecoveryParam
  by_cases h27 : KmsWallet.tryRecover recover digest r s expected 27 = true
  · rw [if_pos h27]
    have h27' := (tryRecover_eq_true_iff recover digest r s expected 27).mp h27
    exact ⟨⟨fun _ => h27', fun _ => rfl⟩,
      ⟨fun hc => absurd hc (by simp), fun hp => absurd h27' hp.1⟩,
      ⟨fun hc => absurd hc (by simp), fun hp => absurd h27' hp.1⟩⟩
  · rw [if_neg h27]
    have hn27 : ¬ KmsWallet.recoversExpected recover digest r s expected 27 :=
      fun hre => h27 ((tryRecover_eq_true_iff recover digest r s expected 27).mpr hre)
    by_cases h28 : KmsWallet.tryRecover recover digest r s expected 28 = true
    · rw [if_pos h28]
      have h28' := (tryRecover_eq_true_iff recover digest r s expected 28).mp h28
      exact ⟨⟨fun hc => absurd hc (by simp), fun hre => absurd hre hn27⟩,
        ⟨fun _ => ⟨hn27, h28'⟩, fun _ => rfl⟩,
        ⟨fun hc => absurd hc (by simp), fun hp => absurd h28' hp.2⟩⟩
    · rw [if_neg h28]
      have hn28 : ¬ KmsWallet.recoversExpected recover digest r s expected 28 :=
        fun hre => h28 ((tryRecover_eq_true_iff recover digest r s expected 28).mpr hre)
      exact ⟨⟨fun hc => absurd hc (by simp), fun hre => absurd hre hn27⟩,
        ⟨fun hc => absurd hc (by simp), fun hp => absurd hp.2 hn28⟩,
        ⟨fun _ => ⟨hn27, hn28⟩, fun _ => rfl⟩⟩

/-- C5 counterexample: a 17-byte seed is passed through unchanged, so the
entropy length is 17, which is not one of the five BIP39 entropy lengths —
the entropy-to-mnemonic conversion is not protected for such seeds. -/
theorem c5_counterexample :
    KmsHdWallet.entropyOfSeed (fun _ => List.replicate 32 0) (List.replicate 17 1) =
      List.replicate 17 1 ∧
    (KmsHdWallet.entropyOfSeed (fun _ => List.replicate 32 0) (List.replicate 17 1)).length = 17 ∧
    ¬(17 = 16 ∨ 17 = 20 ∨ 17 = 24 ∨ 17 = 28 ∨ 17 = 32) := by decide

/-- C5 amended: seeds longer than 32 bytes or shorter than 16 bytes are
keccak-hashed to exactly 32 bytes of entropy; every other seed is used
as-is, so the entropy length is either 32 or the seed's own length in
`[16, 32]` — lengths 17–31 outside {20, 24, 28} pass through, and only for
them can the entropy-to-mnemonic step fail. -/
theorem c5_amended_entropy_length (keccakBytes : List Nat → List Nat)
    (seed : List Nat) (hk : ∀ x, (keccakBytes x).length = 32) :
    (KmsHdWallet.entropyOfSeed keccakBytes seed).length = 32 ∨
    (KmsHdWallet.entropyOfSeed keccakBytes seed = seed ∧
      16 ≤ seed.length ∧ seed.length ≤ 32) := by
  unfold KmsHdWallet.entropyOfSeed
  split
  · exact Or.inl (hk seed)
  · next h1 =>
    split
    · exact Or.inl (hk seed)
    · next h2 => exact Or.inr ⟨rfl, by omega, by omega⟩

/-- Witness for `c5_amended_entropy_length` at a 20-byte seed. -/
theorem c5_amended_entropy_length_witness :
    (∀ x : List Nat,
      ((fun _ : List Nat => List.replicate 32 (0 : Nat)) x).length = 32) ∧
    ((KmsHdWallet.entropyOfSeed (fun _ : List Nat => List.replicate 32 0)
        (List.replicate 20 7)).length = 32 ∨
      (KmsHdWallet.entropyOfSeed (fun _ : List Nat => List.replicate 32 0)
          (List.replicate 20 7) = List.replicate 20 7 ∧
        16 ≤ (List.replicate 20 (7 : Nat)).length ∧
        (List.replicate 20 (7 : Nat)).length ≤ 32)) :=
  ⟨fun _ => rfl,
    c5_amended_entropy_length (fun _ => List.replicate 32 0) (List.replicate 20 7)
      (fun _ => rfl)⟩

/-- C6: `deriveSeed` signs one fixed constant digest — the personal-message
hash of the static label — and uses the raw returned signature bytes,
before any DER decoding, as the seed (also caching exactly those bytes);
consequently the whole derivation depends on the oracle only through its
answer at that fixed digest, so any two runs whose (deterministic) oracles
agree there produce identical master-node results and identical addresses
at every index. -/
theorem c6_deriveSeed_deterministic {M W : Type} (deps : KmsHdWallet.HdDeps M W)
    (st : KmsHdWallet.HdState M) (basePath : List Char) (i : Nat) (sig : List Nat) :
    (st.cachedSeed = none →
      deps.oracleSign (KmsHdWallet.seedDigest deps) = some sig →
      (KmsHdWallet.deriveSeed deps st).1 = .ok sig ∧
      (KmsHdWallet.deriveSeed deps st).2.cachedSeed = some sig) ∧
    (∀ o1 o2 : List Nat → Option (List Nat),
      o1 (KmsHdWallet.seedDigest deps) = o2 (KmsHdWallet.seedDigest deps) →
      KmsHdWallet.getMasterNode (KmsHdWallet.withOracle deps o1)
          (KmsHdWallet.initialHdState M) =
        KmsHdWallet.getMasterNode (KmsHdWallet.withOracle deps o2)
          (KmsHdWallet.initialHdState M) ∧
      KmsHdWallet.getAddress (KmsHdWallet.withOracle deps o1) basePath i
          (KmsHdWallet.initialHdState M) =
        KmsHdWallet.getAddress (KmsHdWallet.withOracle deps o2) basePath i
          (KmsHdWallet.initialHdState M)) := by
  constructor
  · intro h hsig
    unfold KmsHdWallet.deriveSeed
    rw [h, hsig]
    exact ⟨rfl, rfl⟩
  · intro o1 o2 ho
    have hmaster :
        KmsHdWallet.getMasterNode (KmsHdWallet.withOracle deps o1)
            (KmsHdWallet.initialHdState M) =
          KmsHdWallet.getMasterNode (KmsHdWallet.withOracle deps o2)
            (KmsHdWallet.initialHdState M) := by
      unfold KmsHdWallet.getMasterNode KmsHdWallet.deriveSeed
        KmsHdWallet.initialHdState
      simp only [KmsHdWallet.withOracle, KmsHdWallet.seedDigest] at ho ⊢
      rw [ho]
    refine ⟨hmaster, ?_⟩
    unfold KmsHdWallet.getAddress KmsHdWallet.deriveChild
    rw [hmaster]
    simp only [KmsHdWallet.withOracle]

/-- Witness for `c6_deriveSeed_deterministic` on the concrete deps. -/
theorem c6_deriveSeed_deterministic_witness :
    ((KmsHdWallet.initialHdState Nat).cachedSeed = none ∧
      (KmsHdWallet.natHdDeps (some (List.replicate 32 1))).oracleSign
          (KmsHdWallet.seedDigest (KmsHdWallet.natHdDeps (some (List.replicate 32 1)))) =
        some (List.replicate 32 1)) ∧
    ((KmsHdWallet.deriveSeed (KmsHdWallet.natHdDeps (some (List.replicate 32 1)))
        (KmsHdWallet.initialHdState Nat)).1 = .ok (List.replicate 32 1) ∧
      (KmsHdWallet.deriveSeed (KmsHdWallet.natHdDeps (some (List.replicate 32 1)))
        (KmsHdWallet.initialHdState Nat)).2.cachedSeed = some (List.replicate 32 1)) :=
  ⟨⟨rfl, rfl⟩,
    (c6_deriveSeed_deterministic (KmsHdWallet.natHdDeps (some (List.replicate 32 1)))
      (KmsHdWallet.initialHdState Nat) KmsHdWallet.defaultBasePath 0
      (List.replicate 32 1)).1 rfl rfl⟩

theorem getMasterNode_resolved {M W : Type} (deps : KmsHdWallet.HdDeps M W)
    (st : KmsHdWallet.HdState M) (m : M) (h : st.cachedMasterNode = some m) :
    KmsHdWallet.getMasterNode deps st = (.ok m, st) := by
  unfold KmsHdWallet.getMasterNode
  rw [h]

theorem deriveChild_resolved {M W : Type} (deps : KmsHdWallet.HdDeps M W)
    (st : KmsHdWallet.HdState M) (bp : List Char) (i : Nat) (m : M)
    (h : st.cachedMasterNode = some m) :
    KmsHdWallet.deriveChild deps bp i st =
      (.ok (deps.derivePath m (KmsHdWallet.fullPath bp i)), st) := by
  unfold KmsHdWallet.deriveChild
  rw [getMasterNode_resolved deps st m h]

/-- C7: `deriveChild` is a pure function of the master node, the base path
and the index: it hands `derivePath` the concatenation of the base path
(with a leading `m/` stripped) and `/index`, so two identities holding the
same master node and base path get identical children — and identical
addresses, public keys and private keys — at every index; the default base
path yields the Ethereum-standard path `44'/60'/0'/0/index`. -/
theorem c7_deriveChild_pure {M W : Type} (deps : KmsHdWallet.HdDeps M W)
    (st1 st2 : KmsHdWallet.HdState M) (bp : List Char) (i : Nat) (m : M)
    (h1 : st1.cachedMasterNode = some m) (h2 : st2.cachedMasterNode = some m) :
    (KmsHdWallet.deriveChild deps bp i st1).1 =
      .ok (deps.derivePath m (KmsHdWallet.fullPath bp i)) ∧
    (KmsHdWallet.deriveChild deps bp i st1).1 =
      (KmsHdWallet.deriveChild deps bp i st2).1 ∧
    (KmsHdWallet.getAddress deps bp i st1).1 =
      (KmsHdWallet.getAddress deps bp i st2).1 ∧
    (KmsHdWallet.getPublicKey deps bp i st1).1 =
      (KmsHdWallet.getPublicKey deps bp i st2).1 ∧
    (KmsHdWallet.getPrivateKey deps bp i st1).1 =
      (KmsHdWallet.getPrivateKey deps bp i st2).1 ∧
    KmsHdWallet.fullPath KmsHdWallet.defaultBasePath i =
      ['4', '4', Char.ofNat 39, '/', '6', '0', Char.ofNat 39, '/', '0',
        Char.ofNat 39, '/', '0', '/'] ++ Nat.toDigits 10 i := by
  have d1 := deriveChild_resolved deps st1 bp i m h1
  have d2 := deriveChild_resolved deps st2 bp i m h2
  refine ⟨by rw [d1], by rw [d1, d2], ?_, ?_, ?_, rfl⟩
  · unfold KmsHdWallet.getAddress
    rw [d1, d2]
  · unfold KmsHdWallet.getPublicKey
    rw [d1, d2]
  · unfold KmsHdWallet.getPrivateKey
    rw [d1, d2]

/-- Witness for `c7_deriveChild_pure` at two states sharing master node 5. -/
theorem c7_deriveChild_pure_witness :
    ((⟨none, some 5⟩ : KmsHdWallet.HdState Nat).cachedMasterNode = some 5 ∧
      (⟨some [1], some 5⟩ : KmsHdWallet.HdState Nat).cachedMasterNode = some 5) ∧
    ((KmsHdWallet.deriveChild (KmsHdWallet.natHdDeps none) KmsHdWallet.defaultBasePath 3
        (⟨none, some 5⟩ : KmsHdWallet.HdState Nat)).1 =
      .ok ((KmsHdWallet.natHdDeps none).derivePath 5
        (KmsHdWallet.fullPath KmsHdWallet.defaultBasePath 3)) ∧
    (KmsHdWallet.deriveChild (KmsHdWallet.natHdDeps none) KmsHdWallet.defaultBasePath 3
        (⟨none, some 5⟩ : KmsHdWallet.HdState Nat)).1 =
      (KmsHdWallet.deriveChild (KmsHdWallet.natHdDeps none) KmsHdWallet.defaultBasePath 3
        (⟨some [1], some 5⟩ : KmsHdWallet.HdState Nat)).1 ∧
    (KmsHdWallet.getAddress (KmsHdWallet.natHdDeps none) KmsHdWallet.defaultBasePath 3
        (⟨none, some 5⟩ : KmsHdWallet.HdState Nat)).1 =
      (KmsHdWallet.getAddress (KmsHdWallet.natHdDeps none) KmsHdWallet.defaultBasePath 3
        (⟨some [1], some 5⟩ : KmsHdWallet.HdState Nat)).1 ∧
    (KmsHdWallet.getPublicKey (KmsHdWallet.natHdDeps none) KmsHdWallet.defaultBasePath 3
        (⟨none, some 5⟩ : KmsHdWallet.HdState Nat)).1 =
      (KmsHdWallet.getPublicKey (KmsHdWallet.natHdDeps none) KmsHdWallet.defaultBasePath 3
        (⟨some [1], some 5⟩ : KmsHdWallet.HdState Nat)).1 ∧
    (KmsHdWallet.getPrivateKey (KmsHdWallet.natHdDeps none) KmsHdWallet.defaultBasePath 3
        (⟨none, some 5⟩ : KmsHdWallet.HdState Nat)).1 =
      (KmsHdWallet.getPrivateKey (KmsHdWallet.natHdDeps none) KmsHdWallet.defaultBasePath 3
        (⟨some [1], some 5⟩ : KmsHdWallet.HdState Nat)).1 ∧
    KmsHdWallet.fullPath KmsHdWallet.defaultBasePath 3 =
      ['4', '4', Char.ofNat 39, '/', '6', '0', Char.ofNat 39, '/', '0',
        Char.ofNat 39, '/', '0', '/'] ++ Nat.toDigits 10 3) :=
  ⟨⟨rfl, rfl⟩,
    c7_deriveChild_pure (KmsHdWallet.natHdDeps none) ⟨none, some 5⟩ ⟨some [1], some 5⟩
      KmsHdWallet.defaultBasePath 3 5 rfl rfl⟩


theorem getMasterNode_eval_cachedSeed {M W : Type} (deps : KmsHdWallet.HdDeps M W)
    (st : KmsHdWallet.HdState M) (s : List Nat)
    (hm : st.cachedMasterNode = none) (hs : st.cachedSeed = some s) :
    KmsHdWallet.getMasterNode deps st =
      match deps.fromEntropyPhrase (KmsHdWallet.entropyOfSeed deps.keccakBytes s) with
      | none => (.error (), st)
      | some phrase => (.ok (deps.fromPhrase phrase),
          ⟨some s, some (deps.fromPhrase phrase)⟩) := by
  obtain ⟨cs, cm⟩ := st
  replace hm : cm = none := hm
  replace hs : cs = some s := hs
  subst hm
  subst hs
  cases hf : deps.fromEntropyPhrase (KmsHdWallet.entropyOfSeed deps.keccakBytes s) <;>
    simp [KmsHdWallet.getMasterNode, KmsHdWallet.deriveSeed, hf]

theorem getMasterNode_eval_fresh {M W : Type} (deps : KmsHdWallet.HdDeps M W)
    (st : KmsHdWallet.HdState M)
    (hm : st.cachedMasterNode = none) (hs : st.cachedSeed = none) :
    KmsHdWallet.getMasterNode deps st =
      match deps.oracleSign (KmsHdWallet.seedDigest deps) with
      | none => (.error (), st)
      | some sig =>
        match deps.fromEntropyPhrase (KmsHdWallet.entropyOfSeed deps.keccakBytes sig) with
        | none => (.error (), ⟨some sig, none⟩)
        | some phrase => (.ok (deps.fromPhrase phrase),
            ⟨some sig, some (deps.fromPhrase phrase)⟩) := by
  obtain ⟨cs, cm⟩ := st
  replace hm : cm = none := hm
  replace hs : cs = none := hs
  subst hm
  subst hs
  cases ho : deps.oracleSign (KmsHdWallet.seedDigest deps) with
  | none => simp [KmsHdWallet.getMasterNode, KmsHdWallet.deriveSeed, ho]
  | some sig =>
    cases hf : deps.fromEntropyPhrase (KmsHdWallet.entropyOfSeed deps.keccakBytes sig) <;>
      simp [KmsHdWallet.getMasterNode, KmsHdWallet.deriveSeed, ho, hf]

/-- C8 counterexample: with an oracle answering 17 signature bytes, the
mnemonic construction inside `getMasterNode` fails, yet the failed call
leaves the seed cache populated — the cache fields do not hold what they
held before the failed call. -/
theorem c8_counterexample :
    (KmsHdWallet.getMasterNode (KmsHdWallet.natHdDeps (some (List.replicate 17 1)))
        (KmsHdWallet.initialHdState Nat)).1 = .error () ∧
    (KmsHdWallet.initialHdState Nat).cachedSeed = none ∧
    (KmsHdWallet.getMasterNode (KmsHdWallet.natHdDeps (some (List.replicate 17 1)))
        (KmsHdWallet.initialHdState Nat)).2.cachedSeed = some (List.replicate 17 1) :=
  ⟨rfl, rfl, rfl⟩

theorem getMasterNode_eval_seed_sig {M W : Type} (deps : KmsHdWallet.HdDeps M W)
    (st : KmsHdWallet.HdState M) (sig : List Nat)
    (hm : st.cachedMasterNode = none) (hs : st.cachedSeed = none)
    (ho : deps.oracleSign (KmsHdWallet.seedDigest deps) = some sig) :
    KmsHdWallet.getMasterNode deps st =
      match deps.fromEntropyPhrase (KmsHdWallet.entropyOfSeed deps.keccakBytes sig) with
      | none => (.error (), ⟨some sig, none⟩)
      | some phrase => (.ok (deps.fromPhrase phrase),
          ⟨some sig, some (deps.fromPhrase phrase)⟩) := by
  rw [getMasterNode_eval_fresh deps st hm hs, ho]

theorem signDigestW_eval (wdeps : KmsWallet.WalletDeps) (digest : List Nat)
    (wst : KmsWallet.WalletState) (sigBytes : List Nat)
    (hk : wdeps.kmsSign digest = some sigBytes) :
    KmsWallet.signDigestW wdeps digest wst =
      match KmsWallet.parseDERSignature sigBytes with
      | .error e => (.error (.derError e), wst)
      | .ok (r, s) =>
        match KmsWallet.getAddressW wdeps wst with
        | (.error _, st1) => (.error .noPublicKey, st1)
        | (.ok addr, st1) =>
          match KmsWallet.findRecoveryParam wdeps.recoverAddress digest r s addr with
          | .error _ => (.error .recoveryNotFound, st1)
          | .ok v => (.ok (r, s, v), st1) := by
  unfold KmsWallet.signDigestW
  rw [hk]

theorem signDigestW_eval_parsed (wdeps : KmsWallet.WalletDeps) (digest : List Nat)
    (wst : KmsWallet.WalletState) (sigBytes r s : List Nat)
    (hk : wdeps.kmsSign digest = some sigBytes)
    (hp : KmsWallet.parseDERSignature sigBytes = .ok (r, s)) :
    KmsWallet.signDigestW wdeps digest wst =
      match KmsWallet.getAddressW wdeps wst with
      | (.error _, st1) => (.error .noPublicKey, st1)
      | (.ok addr, st1) =>
        match KmsWallet.findRecoveryParam wdeps.recoverAddress digest r s addr with
        | .error _ => (.error .recoveryNotFound, st1)
        | .ok v => (.ok (r, s, v), st1) := by
  rw [signDigestW_eval wdeps digest wst sigBytes hk, hp]

theorem signDigestW_eval_addr (wdeps : KmsWallet.WalletDeps) (digest : List Nat)
    (wst : KmsWallet.WalletState) (sigBytes r s : List Nat) (addr : List Char)
    (ast : KmsWallet.WalletState)
    (hk : wdeps.kmsSign digest = some sigBytes)
    (hp : KmsWallet.parseDERSignature sigBytes = .ok (r, s))
    (ha : KmsWallet.getAddressW wdeps wst = (.ok addr, ast)) :
    KmsWallet.signDigestW wdeps digest wst =
      match KmsWallet.findRecoveryParam wdeps.recoverAddress digest r s addr with
      | .error _ => (.error .recoveryNotFound, ast)
      | .ok v => (.ok (r, s, v), ast) := by
  rw [signDigestW_eval_parsed wdeps digest wst sigBytes r s hk hp, ha]

/-- C8 amended: a failing `getMasterNode` never caches a master node, and
the seed cache after the failure is either untouched or holds exactly the
complete raw oracle signature written by the successful `deriveSeed`
sub-step; a failing `signDigest` leaves the single-key identity's state
either untouched or exactly as the successful embedded `getAddress`
sub-step left it (which only ever caches fully computed values).  No
partial signature is returned on failure. -/
theorem c8_amended_failure_caching {M W : Type} (deps : KmsHdWallet.HdDeps M W)
    (st : KmsHdWallet.HdState M) (wdeps : KmsWallet.WalletDeps)
    (digest : List Nat) (wst : KmsWallet.WalletState) :
    (∀ e, (KmsHdWallet.getMasterNode deps st).1 = .error e →
      (KmsHdWallet.getMasterNode deps st).2.cachedMasterNode = st.cachedMasterNode ∧
      ((KmsHdWallet.getMasterNode deps st).2.cachedSeed = st.cachedSeed ∨
        (st.cachedSeed = none ∧
          ∃ sig, deps.oracleSign (KmsHdWallet.seedDigest deps) = some sig ∧
            (KmsHdWallet.getMasterNode deps st).2.cachedSeed = some sig))) ∧
    (∀ e, (KmsWallet.signDigestW wdeps digest wst).1 = .error e →
      (KmsWallet.signDigestW wdeps digest wst).2 = wst ∨
      (KmsWallet.signDigestW wdeps digest wst).2 =
        (KmsWallet.getAddressW wdeps wst).2) := by
  constructor
  · intro e he
    cases hm : st.cachedMasterNode with
    | some m =>
      rw [getMasterNode_resolved deps st m hm] at he
      exact Except.noConfusion he
    | none =>
      cases hs : st.cachedSeed with
      | some s =>
        have hev := getMasterNode_eval_cachedSeed deps st s hm hs
        cases hf : deps.fromEntropyPhrase (KmsHdWallet.entropyOfSeed deps.keccakBytes s) with
        | none =>
          have hev2 : KmsHdWallet.getMasterNode deps st = (.error (), st) := by
            rw [hev, hf]
          rw [hev2]
          exact ⟨hm, Or.inl hs⟩
        | some p =>
          have hev2 : KmsHdWallet.getMasterNode deps st =
              (.ok (deps.fromPhrase p), ⟨some s, some (deps.fromPhrase p)⟩) := by
            rw [hev, hf]
          rw [hev2] at he
          exact Except.noConfusion he
      | none =>
        cases ho : deps.oracleSign (KmsHdWallet.seedDigest deps) with
        | none =>
          have hev2 : KmsHdWallet.getMasterNode deps st = (.error (), st) := by
            rw [getMasterNode_eval_fresh deps st hm hs, ho]
          rw [hev2]
          exact ⟨hm, Or.inl hs⟩
        | some sig =>
          have hev := getMasterNode_eval_seed_sig deps st sig hm hs ho
          cases hf : deps.fromEntropyPhrase
              (KmsHdWallet.entropyOfSeed deps.keccakBytes sig) with
          | none =>
            have hev2 : KmsHdWallet.getMasterNode deps st =
                (.error (), ⟨some sig, none⟩) := by
              rw [hev, hf]
            rw [hev2]
            exact ⟨rfl, Or.inr ⟨rfl, sig, rfl, rfl⟩⟩
          | some p =>
            have hev2 : KmsHdWallet.getMasterNode deps st =
                (.ok (deps.fromPhrase p), ⟨some sig, some (deps.fromPhrase p)⟩) := by
              rw [hev, hf]
            rw [hev2] at he
            exact Except.noConfusion he
  · intro e he
    cases hk : wdeps.kmsSign digest with
    | none =>
      have hev : KmsWallet.signDigestW wdeps digest wst = (.error .kmsFailed, wst) := by
        unfold KmsWallet.signDigestW
        rw [hk]
      rw [hev]
      exact Or.inl rfl
    | some sigBytes =>
      cases hp : KmsWallet.parseDERSignature sigBytes with
      | error pe =>
        have hev : KmsWallet.signDigestW wdeps digest wst =
            (.error (.derError pe), wst) := by
          rw [signDigestW_eval wdeps digest wst sigBytes hk, hp]
        rw [hev]
        exact Or.inl rfl
      | ok rs =>
        obtain ⟨r, s⟩ := rs
        cases ha : KmsWallet.getAddressW wdeps wst with
        | mk ares ast =>
          cases ares with
          | error ae =>
            have hev : KmsWallet.signDigestW wdeps digest wst =
                (.error .noPublicKey, ast) := by
              rw [signDigestW_eval_parsed wdeps digest wst sigBytes r s hk hp, ha]
            rw [hev]
            exact Or.inr rfl
          | ok addr =>
            have h4 := signDigestW_eval_addr wdeps digest wst sigBytes r s addr ast hk hp ha
            cases hr : KmsWallet.findRecoveryParam wdeps.recoverAddress digest r s addr with
            | error re =>
              have hev : KmsWallet.signDigestW wdeps digest wst =
                  (.error .recoveryNotFound, ast) := by
                rw [h4, hr]
              rw [hev]
              exact Or.inr rfl
            | ok v =>
              have hev : KmsWallet.signDigestW wdeps digest wst =
                  (.ok (r, s, v), ast) := by
                rw [h4, hr]
              rw [hev] at he
              exact Except.noConfusion he

/-- Witness for `c8_amended_failure_caching`: the HD failure with a
17-byte oracle answer, and a `signDigest` failure with a KMS that returns
no signature. -/
theorem c8_amended_failure_caching_witness :
    ((KmsHdWallet.getMasterNode (KmsHdWallet.natHdDeps (some (List.replicate 17 1)))
        (KmsHdWallet.initialHdState Nat)).1 = .error () ∧
      (KmsHdWallet.getMasterNode (KmsHdWallet.natHdDeps (some (List.replicate 17 1)))
          (KmsHdWallet.initialHdState Nat)).2.cachedMasterNode =
        (KmsHdWallet.initialHdState Nat).cachedMasterNode) ∧
    ((KmsWallet.signDigestW { natWalletDeps [] with kmsSign := fun _ => none } []
        KmsWallet.initialWalletState).1 = .error .kmsFailed ∧
      ((KmsWallet.signDigestW { natWalletDeps [] with kmsSign := fun _ => none } []
          KmsWallet.initialWalletState).2 = KmsWallet.initialWalletState ∨
        (KmsWallet.signDigestW { natWalletDeps [] with kmsSign := fun _ => none } []
            KmsWallet.initialWalletState).2 =
          (KmsWallet.getAddressW { natWalletDeps [] with kmsSign := fun _ => none }
            KmsWallet.initialWalletState).2)) :=
  ⟨⟨rfl,
    ((c8_amended_failure_caching (KmsHdWallet.natHdDeps (some (List.replicate 17 1)))
      (KmsHdWallet.initialHdState Nat) (natWalletDeps []) []
      KmsWallet.initialWalletState).1 () rfl).1⟩,
    ⟨rfl,
      (c8_amended_failure_caching (KmsHdWallet.natHdDeps (some (List.replicate 17 1)))
        (KmsHdWallet.initialHdState Nat)
        { natWalletDeps [] with kmsSign := fun _ => none } []
        KmsWallet.initialWalletState).2 .kmsFailed rfl⟩⟩

theorem getMasterNode_ok_cached {M W : Type} (deps : KmsHdWallet.HdDeps M W)
    (st : KmsHdWallet.HdState M) (m' : M)
    (h : (KmsHdWallet.getMasterNode deps st).1 = .ok m') :
    (KmsHdWallet.getMasterNode deps st).2.cachedMasterNode = some m' := by
  cases hm : st.cachedMasterNode with
  | some m =>
    rw [getMasterNode_resolved deps st m hm] at h ⊢
    rw [hm]
    exact congrArg some (Except.ok.inj h)
  | none =>
    cases hs : st.cachedSeed with
    | some s =>
      have hev := getMasterNode_eval_cachedSeed deps st s hm hs
      cases hf : deps.fromEntropyPhrase (KmsHdWallet.entropyOfSeed deps.keccakBytes s) with
      | none =>
        have hev2 : KmsHdWallet.getMasterNode deps st = (.error (), st) := by
          rw [hev, hf]
        rw [hev2] at h
        exact Except.noConfusion h
      | some p =>
        have hev2 : KmsHdWallet.getMasterNode deps st =
            (.ok (deps.fromPhrase p), ⟨some s, some (deps.fromPhrase p)⟩) := by
          rw [hev, hf]
        rw [hev2] at h ⊢
        exact congrArg some (Except.ok.inj h)
    | none =>
      cases ho : deps.oracleSign (KmsHdWallet.seedDigest deps) with
      | none =>
        have hev2 : KmsHdWallet.getMasterNode deps st = (.error (), st) := by
          rw [getMasterNode_eval_fresh deps st hm hs, ho]
        rw [hev2] at h
        exact Except.noConfusion h
      | some sig =>
        have hev := getMasterNode_eval_seed_sig deps st sig hm hs ho
        cases hf : deps.fromEntropyPhrase
            (KmsHdWallet.entropyOfSeed deps.keccakBytes sig) with
        | none =>
          have hev2 : KmsHdWallet.getMasterNode deps st =
              (.error (), ⟨some sig, none⟩) := by
            rw [hev, hf]
          rw [hev2] at h
          exact Except.noConfusion h
        | some p =>
          have hev2 : KmsHdWallet.getMasterNode deps st =
              (.ok (deps.fromPhrase p), ⟨some sig, some (deps.fromPhrase p)⟩) := by
            rw [hev, hf]
          rw [hev2] at h ⊢
          exact congrArg some (Except.ok.inj h)

theorem getAddress_resolved {M W : Type} (deps : KmsHdWallet.HdDeps M W)
    (st : KmsHdWallet.HdState M) (bp : List Char) (i : Nat) (m : M)
    (h : st.cachedMasterNode = some m) :
    KmsHdWallet.getAddress deps bp i st =
      (.ok (deps.addressOf (deps.derivePath m (KmsHdWallet.fullPath bp i))), st) := by
  unfold KmsHdWallet.getAddress
  rw [deriveChild_resolved deps st bp i m h]

theorem getAddresses_succ_eval {M W : Type} (deps : KmsHdWallet.HdDeps M W)
    (bp : List Char) (c s : Nat) (st st1 : KmsHdWallet.HdState M) (a : List Char)
    (hga : KmsHdWallet.getAddress deps bp s st = (.ok a, st1)) :
    KmsHdWallet.getAddresses deps bp (c + 1) s st =
      match KmsHdWallet.getAddresses deps bp c (s + 1) st1 with
      | (.error e, st2) => (.error e, st2)
      | (.ok as, st2) => (.ok (a :: as), st2) := by
  conv_lhs => rw [KmsHdWallet.getAddresses]
  rw [hga]

theorem getAddresses_succ_eval_error {M W : Type} (deps : KmsHdWallet.HdDeps M W)
    (bp : List Char) (c s : Nat) (st st1 : KmsHdWallet.HdState M) (e : Unit)
    (hga : KmsHdWallet.getAddress deps bp s st = (.error e, st1)) :
    KmsHdWallet.getAddresses deps bp (c + 1) s st = (.error e, st1) := by
  conv_lhs => rw [KmsHdWallet.getAddresses]
  rw [hga]

theorem getAddresses_resolved {M W : Type} (deps : KmsHdWallet.HdDeps M W)
    (bp : List Char) (m : M) :
    ∀ (c s : Nat) (st : KmsHdWallet.HdState M), st.cachedMasterNode = some m →
      ∃ as, KmsHdWallet.getAddresses deps bp c s st = (.ok as, st) := by
  intro c
  induction c with
  | zero => exact fun s st _ => ⟨[], rfl⟩
  | succ c ih =>
    intro s st h
    have hga := getAddress_resolved deps st bp s m h
    obtain ⟨as, has⟩ := ih (s + 1) st h
    exact ⟨_, by rw [getAddresses_succ_eval deps bp c s st st _ hga, has]⟩

theorem applyOp_resolved {M W : Type} (deps : KmsHdWallet.HdDeps M W)
    (bp : List Char) (op : KmsHdWallet.HdOp) (st : KmsHdWallet.HdState M) (m : M)
    (h : st.cachedMasterNode = some m) :
    KmsHdWallet.applyOp deps bp op st = (.ok (), st) := by
  cases op with
  | getAddr i =>
    simp only [KmsHdWallet.applyOp]
    unfold KmsHdWallet.getAddress
    rw [deriveChild_resolved deps st bp i m h]
    rfl
  | getPub i =>
    simp only [KmsHdWallet.applyOp]
    unfold KmsHdWallet.getPublicKey
    rw [deriveChild_resolved deps st bp i m h]
    rfl
  | getPriv i =>
    simp only [KmsHdWallet.applyOp]
    unfold KmsHdWallet.getPrivateKey
    rw [deriveChild_resolved deps st bp i m h]
    rfl
  | signMsg i msg =>
    simp only [KmsHdWallet.applyOp]
    unfold KmsHdWallet.signMessage
    rw [deriveChild_resolved deps st bp i m h]
    rfl
  | signTx i tx =>
    simp only [KmsHdWallet.applyOp]
    unfold KmsHdWallet.signTransaction
    rw [deriveChild_resolved deps st bp i m h]
    rfl
  | getWal i =>
    simp only [KmsHdWallet.applyOp]
    unfold KmsHdWallet.getWallet
    rw [deriveChild_resolved deps st bp i m h]
    rfl
  | getAddrs c s =>
    simp only [KmsHdWallet.applyOp]
    obtain ⟨as, has⟩ := getAddresses_resolved deps bp m c s st h
    rw [has]
    rfl

theorem getAddress_ok {M W : Type} (deps : KmsHdWallet.HdDeps M W) (bp : List Char)
    (i : Nat) (st : KmsHdWallet.HdState M) (a : List Char)
    (ast : KmsHdWallet.HdState M)
    (h : KmsHdWallet.getAddress deps bp i st = (.ok a, ast)) :
    ∃ m', KmsHdWallet.getMasterNode deps st = (.ok m', ast) := by
  unfold KmsHdWallet.getAddress KmsHdWallet.deriveChild at h
  cases hg : KmsHdWallet.getMasterNode deps st with
  | mk res st1 =>
    rw [hg] at h
    cases res with
    | error e =>
      exact Except.noConfusion
        (show (Except.error e : Except Unit (List Char)) = .ok a from congrArg Prod.fst h)
    | ok m =>
      have hsnd : st1 = ast := congrArg Prod.snd h
      exact ⟨m, by rw [hsnd]⟩

theorem applyOp_fresh_success {M W : Type} (deps : KmsHdWallet.HdDeps M W)
    (bp : List Char) (op : KmsHdWallet.HdOp) (st : KmsHdWallet.HdState M)
    (hder : KmsHdWallet.opDerives op)
    (hok : (KmsHdWallet.applyOp deps bp op st).1 = .ok ()) :
    ((KmsHdWallet.applyOp deps bp op st).2.cachedMasterNode).isSome = true := by
  cases op with
  | getAddr i =>
    simp only [KmsHdWallet.applyOp] at hok ⊢
    unfold KmsHdWallet.getAddress KmsHdWallet.deriveChild at hok ⊢
    cases hg : KmsHdWallet.getMasterNode deps st with
    | mk res st1 =>
      rw [hg] at hok
      cases res with
      | error e =>
        exact Except.noConfusion (show (Except.error e : Except Unit Unit) = .ok () from hok)
      | ok m =>
        have hc : st1.cachedMasterNode = some m := by
          have h2 := getMasterNode_ok_cached deps st m (by rw [hg])
          rwa [hg] at h2
        show st1.cachedMasterNode.isSome = true
        rw [hc]
        rfl
  | getPub i =>
    simp only [KmsHdWallet.applyOp] at hok ⊢
    unfold KmsHdWallet.getPublicKey KmsHdWallet.deriveChild at hok ⊢
    cases hg : KmsHdWallet.getMasterNode deps st with
    | mk res st1 =>
      rw [hg] at hok
      cases res with
      | error e =>
        exact Except.noConfusion (show (Except.error e : Except Unit Unit) = .ok () from hok)
      | ok m =>
        have hc : st1.cachedMasterNode = some m := by
          have h2 := getMasterNode_ok_cached deps st m (by rw [hg])
          rwa [hg] at h2
        show st1.cachedMasterNode.isSome = true
        rw [hc]
        rfl
  | getPriv i =>
    simp only [KmsHdWallet.applyOp] at hok ⊢
    unfold KmsHdWallet.getPrivateKey KmsHdWallet.deriveChild at hok ⊢
    cases hg : KmsHdWallet.getMasterNode deps st with
    | mk res st1 =>
      rw [hg] at hok
      cases res with
      | error e =>
        exact Except.noConfusion (show (Except.error e : Except Unit Unit) = .ok () from hok)
      | ok m =>
        have hc : st1.cachedMasterNode = some m := by
          have h2 := getMasterNode_ok_cached deps st m (by rw [hg])
          rwa [hg] at h2
        show st1.cachedMasterNode.isSome = true
        rw [hc]
        rfl
  | signMsg i msg =>
    simp only [KmsHdWallet.applyOp] at hok ⊢
    unfold KmsHdWallet.signMessage KmsHdWallet.deriveChild at hok ⊢
    cases hg : KmsHdWallet.getMasterNode deps st with
    | mk res st1 =>
      rw [hg] at hok
      cases res with
      | error e =>
        exact Except.noConfusion (show (Except.error e : Except Unit Unit) = .ok () from hok)
      | ok m =>
        have hc : st1.cachedMasterNode = some m := by
          have h2 := getMasterNode_ok_cached deps st m (by rw [hg])
          rwa [hg] at h2
        show st1.cachedMasterNode.isSome = true
        rw [hc]
        rfl
  | signTx i tx =>
    simp only [KmsHdWallet.applyOp] at hok ⊢
    unfold KmsHdWallet.signTransaction KmsHdWallet.deriveChild at hok ⊢
    cases hg : KmsHdWallet.getMasterNode deps st with
    | mk res st1 =>
      rw [hg] at hok
      cases res with
      | error e =>
        exact Except.noConfusion (show (Except.error e : Except Unit Unit) = .ok () from hok)
      | ok m =>
        have hc : st1.cachedMasterNode = some m := by
          have h2 := getMasterNode_ok_cached deps st m (by rw [hg])
          rwa [hg] at h2
        show st1.cachedMasterNode.isSome = true
        rw [hc]
        rfl
  | getWal i =>
    simp only [KmsHdWallet.applyOp] at hok ⊢
    unfold KmsHdWallet.getWallet KmsHdWallet.deriveChild at hok ⊢
    cases hg : KmsHdWallet.getMasterNode deps st with
    | mk res st1 =>
      rw [hg] at hok
      cases res with
      | error e =>
        exact Except.noConfusion (show (Except.error e : Except Unit Unit) = .ok () from hok)
      | ok m =>
        have hc : st1.cachedMasterNode = some m := by
          have h2 := getMasterNode_ok_cached deps st m (by rw [hg])
          rwa [hg] at h2
        show st1.cachedMasterNode.isSome = true
        rw [hc]
        rfl
  | getAddrs c s0 =>
    replace hder : 0 < c := hder
    obtain ⟨c', rfl⟩ : ∃ c', c = c' + 1 := ⟨c - 1, by omega⟩
    simp only [KmsHdWallet.applyOp] at hok ⊢
    cases ha : KmsHdWallet.getAddress deps bp s0 st with
    | mk ares ast =>
      cases ares with
      | error e =>
        have heval := getAddresses_succ_eval_error deps bp c' s0 st ast e ha
        rw [heval] at hok
        exact Except.noConfusion (show (Except.error e : Except Unit Unit) = .ok () from hok)
      | ok a1 =>
        obtain ⟨m', hmn⟩ := getAddress_ok deps bp s0 st a1 ast ha
        have hc : ast.cachedMasterNode = some m' := by
          have h2 := getMasterNode_ok_cached deps st m' (by rw [hmn])
          rwa [hmn] at h2
        obtain ⟨as, has⟩ := getAddresses_resolved deps bp m' c' (s0 + 1) ast hc
        have heval := getAddresses_succ_eval deps bp c' s0 st ast a1 ha
        rw [heval, has]
        show ast.cachedMasterNode.isSome = true
        rw [hc]
        rfl

/-- C9: an HD identity starts with neither seed nor master node cached (no
oracle call made); once the master node is cached, every
derivation-dependent operation succeeds, leaves the whole state — and in
particular the cached master node — untouched, and is independent of the
signing oracle (no further oracle call can influence it); and from the
unresolved state, the first derivation-dependent operation that succeeds
leaves a master node cached, so the transition happens exactly once. -/
theorem c9_state_machine {M W : Type} (deps : KmsHdWallet.HdDeps M W)
    (bp : List Char) (op : KmsHdWallet.HdOp) (st : KmsHdWallet.HdState M) :
    ((KmsHdWallet.initialHdState M).cachedSeed = none ∧
      (KmsHdWallet.initialHdState M).cachedMasterNode = none) ∧
    (∀ m, st.cachedMasterNode = some m →
      KmsHdWallet.applyOp deps bp op st = (.ok (), st) ∧
      ∀ o, KmsHdWallet.applyOp (KmsHdWallet.withOracle deps o) bp op st = (.ok (), st)) ∧
    (st.cachedMasterNode = none → KmsHdWallet.opDerives op →
      (KmsHdWallet.applyOp deps bp op st).1 = .ok () →
      ((KmsHdWallet.applyOp deps bp op st).2.cachedMasterNode).isSome = true) := by
  refine ⟨⟨rfl, rfl⟩, ?_, ?_⟩
  · intro m hm
    exact ⟨applyOp_resolved deps bp op st m hm,
      fun o => applyOp_resolved (KmsHdWallet.withOracle deps o) bp op st m hm⟩
  · intro _ hder hok
    exact applyOp_fresh_success deps bp op st hder hok

/-- Witness for `c9_state_machine`: a resolved identity serving `getAddress(0)`
from the cache regardless of the oracle, and an unresolved identity caching
its master node on the first successful operation. -/
theorem c9_state_machine_witness :
    ((KmsHdWallet.initialHdState Nat).cachedSeed = none ∧
      (KmsHdWallet.initialHdState Nat).cachedMasterNode = none) ∧
    ((⟨some [2], some 5⟩ : KmsHdWallet.HdState Nat).cachedMasterNode = some 5 ∧
      KmsHdWallet.applyOp (KmsHdWallet.natHdDeps (some (List.replicate 32 1)))
          KmsHdWallet.defaultBasePath (.getAddr 0) ⟨some [2], some 5⟩ =
        (.ok (), ⟨some [2], some 5⟩) ∧
      KmsHdWallet.applyOp
          (KmsHdWallet.withOracle (KmsHdWallet.natHdDeps (some (List.replicate 32 1)))
            (fun _ => none))
          KmsHdWallet.defaultBasePath (.getAddr 0) ⟨some [2], some 5⟩ =
        (.ok (), ⟨some [2], some 5⟩)) ∧
    (KmsHdWallet.opDerives (.getAddr 0) ∧
      (KmsHdWallet.applyOp (KmsHdWallet.natHdDeps (some (List.replicate 32 1)))
          KmsHdWallet.defaultBasePath (.getAddr 0) (KmsHdWallet.initialHdState Nat)).1 =
        .ok () ∧
      ((KmsHdWallet.applyOp (KmsHdWallet.natHdDeps (some (List.replicate 32 1)))
          KmsHdWallet.defaultBasePath (.getAddr 0)
          (KmsHdWallet.initialHdState Nat)).2.cachedMasterNode).isSome = true) := by
  have h := c9_state_machine (KmsHdWallet.natHdDeps (some (List.replicate 32 1)))
    KmsHdWallet.defaultBasePath (KmsHdWallet.HdOp.getAddr 0)
    (⟨some [2], some 5⟩ : KmsHdWallet.HdState Nat)
  have h2 := c9_state_machine (KmsHdWallet.natHdDeps (some (List.replicate 32 1)))
    KmsHdWallet.defaultBasePath (KmsHdWallet.HdOp.getAddr 0)
    (KmsHdWallet.initialHdState Nat)
  exact ⟨h.1, ⟨rfl, (h.2.1 5 rfl).1, (h.2.1 5 rfl).2 (fun _ => none)⟩,
    trivial, rfl, h2.2.2 rfl trivial rfl⟩
